import Mathlib

/-!
Verification of the keyleds device-discovery core: the device watcher
(`tools/DeviceWatcher.h`) and the device lifecycle registry
(`keyledsd/Service.cxx`).

The development embeds the two components shallowly:

* `Description` mirrors `device::Description` — an immutable snapshot of one
  device's identity, property map, tag list and attribute map.
* The discovery engine (`DeviceWatcher`) is declared in
  `tools/DeviceWatcher.h`; the bodies of `scan`, `setActive`, the monitor
  handler and `FilteredDeviceWatcher::isVisible` live in a translation unit
  that is not part of the sources at hand, so those bodies are modelled from
  the specification text and marked as such in their doc comments.
* The lifecycle registry (`keyleds::Service`) is embedded from
  `Service.cxx`: each Qt slot becomes a function from the service state and
  the notification payload to a trace of primitive actions, and a separate
  interpreter applies a trace to the state.  Traces make the order of
  signal emission versus map mutation observable, which several properties
  are about.
-/

namespace Keyleds

/-- Value snapshot of one device, mirroring `device::Description`
(`DeviceWatcher.h`): identity strings plus eagerly materialised property,
tag and attribute bags. -/
structure Description where
  devPath    : String
  subsystem  : String
  devType    : String
  devNode    : String
  properties : List (String × String)
  tags       : List String
  attributes : List (String × String)
deriving DecidableEq, Repr

/-- A notification emitted by the device watcher: the `deviceAdded` /
`deviceRemoved` signals of `DeviceWatcher`, carrying the description. -/
inductive Event where
  | added   (d : Description)
  | removed (d : Description)
deriving DecidableEq, Repr

/-- The device path a watcher notification is about. -/
def Event.path : Event → String
  | .added d   => d.devPath
  | .removed d => d.devPath

/-- Entries of a device list whose path equals `p`. -/
def filterPath (l : List Description) (p : String) : List Description :=
  l.filter (fun d => d.devPath == p)

/-- Lookup in the known-device map (`m_known`, keyed by device path):
the first entry whose path equals `p`. -/
def findByPath (l : List Description) (p : String) : Option Description :=
  (filterPath l p).head?

/-- The device paths of a list are pairwise distinct — the well-formedness
of a map keyed by device path. -/
def pathsNodup (l : List Description) : Prop :=
  (l.map Description.devPath).Nodup

/-- Notifications of a history that concern path `p`. -/
def eventsFor (h : List Event) (p : String) : List Event :=
  h.filter (fun e => e.path == p)

/-- Modelled from the spec: the devices of `scan`'s diff that are in the
filtered enumeration but not in the known map — each yields a
`deviceAdded` notification and is inserted (body of `DeviceWatcher::scan`
is not among the sources). -/
def scanAdded (visible known : List Description) : List Description :=
  visible.filter (fun d => !(known.any (fun k => k.devPath == d.devPath)))

/-- Modelled from the spec: the devices of `scan`'s diff that are in the
known map but not in the filtered enumeration — each yields a
`deviceRemoved` notification and is erased (body of `DeviceWatcher::scan`
is not among the sources). -/
def scanRemoved (visible known : List Description) : List Description :=
  known.filter (fun k => !(visible.any (fun d => d.devPath == k.devPath)))

/-- Modelled from the spec: the known-map entries `scan` leaves untouched —
present in both the filtered enumeration and the known map; the remembered
snapshot is kept, snapshots are not diffed field by field (body of
`DeviceWatcher::scan` is not among the sources). -/
def scanKept (visible known : List Description) : List Description :=
  known.filter (fun k => visible.any (fun d => d.devPath == k.devPath))

/-- Modelled from the spec: `DeviceWatcher::scan`'s diff of a filtered
enumeration `visible` against the known map — the new known map and the
notifications emitted (the body of `scan` is not among the sources). -/
def scanDiff (visible known : List Description) :
    List Description × List Event :=
  (scanKept visible known ++ scanAdded visible known,
   (scanAdded visible known).map .added
     ++ (scanRemoved visible known).map .removed)

/-- State of the discovery engine: the known-device map `m_known` and the
`m_active` monitoring flag (`DeviceWatcher`, `DeviceWatcher.h`). -/
structure WatcherState where
  known  : List Description
  active : Bool
deriving DecidableEq, Repr

/-- Initial watcher state: empty known map, inactive. -/
def initWatcher : WatcherState := { known := [], active := false }

/-- An operation on the discovery engine: a `scan` seeing a given OS
enumeration, a `setActive` call (with the enumeration the baseline scan of
an activation would see), or one raw monitor event (`isAdd` true for an
attach action). -/
inductive WatcherOp where
  | scan       (enumeration : List Description)
  | setActive  (b : Bool) (enumeration : List Description)
  | monitorEvent (isAdd : Bool) (d : Description)
deriving DecidableEq, Repr

/-- Well-formedness of the OS input to an operation: an enumeration lists
each device path at most once. -/
def WatcherOp.wf : WatcherOp → Prop
  | .scan enumeration => (enumeration.map Description.devPath).Nodup
  | .setActive _ enumeration => (enumeration.map Description.devPath).Nodup
  | .monitorEvent _ _ => True

/-- Modelled from the spec: one step of the discovery engine (bodies of
`DeviceWatcher::scan`, `DeviceWatcher::setActive` and
`DeviceWatcher::onMonitorReady` are not among the sources).  `scan` filters
the enumeration through the visibility predicate and diffs it against the
known map; activating performs a baseline scan, deactivating is silent and
keeps the known map; a monitor event is run through the visibility
predicate and applies the same add/remove semantics as the diff. -/
def watcherStep (vis : Description → Bool) (s : WatcherState) :
    WatcherOp → WatcherState × List Event
  | .scan enumeration =>
      let r := scanDiff (enumeration.filter vis) s.known
      ({ s with known := r.1 }, r.2)
  | .setActive b enumeration =>
      if b && !s.active then
        let r := scanDiff (enumeration.filter vis) s.known
        ({ known := r.1, active := true }, r.2)
      else if !b && s.active then
        ({ s with active := false }, [])
      else (s, [])
  | .monitorEvent isAdd d =>
      if !(vis d) then (s, [])
      else if isAdd then
        match findByPath s.known d.devPath with
        | some _ => (s, [])
        | none => ({ s with known := s.known ++ [d] }, [.added d])
      else
        match findByPath s.known d.devPath with
        | some k =>
            ({ s with known := s.known.filter (fun x => !(x.devPath == d.devPath)) },
             [.removed k])
        | none => (s, [])

/-- Run the discovery engine over a list of operations, returning the final
state and the concatenated notification history. -/
def watcherRun (vis : Description → Bool) (s : WatcherState) :
    List WatcherOp → WatcherState × List Event
  | [] => (s, [])
  | op :: ops =>
      let r := watcherStep vis s op
      let rest := watcherRun vis r.1 ops
      (rest.1, r.2 ++ rest.2)

/-- The description the known map must hold for a path, given the last
notification emitted for that path: the added snapshot, or nothing. -/
def expectedOf : Option Event → Option Description
  | some (.added d) => some d
  | _ => none

/-- The last notification emitted for path `p` in history `h`. -/
def lastEventFor (h : List Event) (p : String) : Option Event :=
  (eventsFor h p).getLast?

/-! ## The match filter (`FilteredDeviceWatcher`, `DeviceWatcher.h`) -/

/-- Rule state of `FilteredDeviceWatcher` (`DeviceWatcher.h`): an optional
subsystem and device type (empty string meaning unset), plus required
property, tag and attribute matches accumulated by `setSubsystem`,
`setDevType`, `addProperty`, `addTag` and `addAttribute`. -/
structure DeviceFilter where
  matchSubsystem : String
  matchDevType   : String
  matchProperties : List (String × String)
  matchTags       : List String
  matchAttributes : List (String × String)
deriving DecidableEq, Repr

/-- The filter with no rules: everything is visible. -/
def emptyFilter : DeviceFilter :=
  { matchSubsystem := "", matchDevType := "",
    matchProperties := [], matchTags := [], matchAttributes := [] }

/-- Modelled from the spec: `FilteredDeviceWatcher::isVisible` (its body is
not among the sources) — the conjunction of all configured rules: subsystem
unset or equal, device type unset or equal, every required property present
with the exact value, every required tag present, every required attribute
present with the exact value. -/
def isVisible (f : DeviceFilter) (d : Description) : Bool :=
  (f.matchSubsystem == "" || f.matchSubsystem == d.subsystem)
    && (f.matchDevType == "" || f.matchDevType == d.devType)
    && f.matchProperties.all (fun kv => d.properties.lookup kv.1 == some kv.2)
    && f.matchTags.all (fun t => d.tags.contains t)
    && f.matchAttributes.all (fun kv => d.attributes.lookup kv.1 == some kv.2)

/-! ## The lifecycle registry (`keyleds::Service`, `Service.cxx`) -/

/-- The per-device manager of `Service`: a `DeviceManager` owning the opened
device and the description remembered at open time (`Service.cxx` uses
`manager->description()` to drive removal). -/
structure DeviceManager where
  description : Description
deriving DecidableEq, Repr

/-- Outcome of `Device(description.devNode())` in `Service::onDeviceAdded`:
success, or a thrown `Device::error` carrying an error code. -/
inductive OpenResult where
  | ok
  | err (code : Nat)
deriving DecidableEq, Repr

/-- The `KEYLEDS_ERROR_HIDVERSION` error code that `Service::onDeviceAdded`
suppresses.  Modelled from the spec: the numeric value lives in the keyleds
C library headers, not among the sources; only its identity matters. -/
def KEYLEDS_ERROR_HIDVERSION : Nat := 4

/-- State of the lifecycle registry: `m_devices`, the map from device path
to owned manager, and the `m_active` flag (`Service.h` members as used by
`Service.cxx`). -/
structure ServiceState where
  devices : List (String × DeviceManager)
  active  : Bool
deriving DecidableEq, Repr

/-- A service with no tracked devices, inactive. -/
def initService : ServiceState := { devices := [], active := false }

/-- Lookup in the registry map `m_devices` by device path. -/
def findDev (m : List (String × DeviceManager)) (p : String) :
    Option DeviceManager :=
  ((m.filter (fun e => e.1 == p)).head?).map (fun e => e.2)

/-- Erasure from the registry map `m_devices` by device path
(`m_devices.erase(it)`; with unique keys this removes the one entry). -/
def eraseDev (m : List (String × DeviceManager)) (p : String) :
    List (String × DeviceManager) :=
  m.filter (fun e => !(e.1 == p))

/-- `m_devices[path] = std::move(manager)`: replace the value at an
existing key, or insert a fresh entry. -/
def insertDev (m : List (String × DeviceManager)) (p : String)
    (v : DeviceManager) : List (String × DeviceManager) :=
  if m.any (fun e => e.1 == p) then
    m.map (fun e => if e.1 == p then (p, v) else e)
  else m ++ [(p, v)]

/-- The keys of the registry map are pairwise distinct. -/
def keysNodup (m : List (String × DeviceManager)) : Prop :=
  (m.map Prod.fst).Nodup

/-- A primitive effect of a `Service` slot, in the order the statements of
`Service.cxx` perform them: signal emissions, registry-map mutations,
`std::cerr` error reporting, `QCoreApplication::quit()`, watcher
(de)activation, and the destruction of all managers by
`m_devices.clear()`. -/
inductive Action where
  | emitManagerAdded   (p : String) (m : DeviceManager)
  | emitManagerRemoved (p : String) (m : DeviceManager)
  | insertManager      (p : String) (m : DeviceManager)
  | eraseManager       (p : String)
  | reportError        (code : Nat)
  | quit
  | setWatcherActive   (b : Bool)
  | clearManagers
deriving DecidableEq, Repr

/-- Effect of one primitive action on the service state.  Emissions,
error reporting and the quit request do not change the state. -/
def applyAction (s : ServiceState) : Action → ServiceState
  | .emitManagerAdded _ _   => s
  | .emitManagerRemoved _ _ => s
  | .insertManager p m      => { s with devices := insertDev s.devices p m }
  | .eraseManager p         => { s with devices := eraseDev s.devices p }
  | .reportError _          => s
  | .quit                   => s
  | .setWatcherActive b     => { s with active := b }
  | .clearManagers          => { s with devices := [] }

/-- Run a trace of primitive actions from a state. -/
def applyTrace (s : ServiceState) (t : List Action) : ServiceState :=
  t.foldl applyAction s

/-- `Service::onDeviceAdded` (`Service.cxx`): try to open the device node;
on success construct the manager, emit `deviceManagerAdded`, and only then
store the manager under the device path; on a `Device::error` suppress the
`KEYLEDS_ERROR_HIDVERSION` code and report any other code, leaving the
registry untouched. -/
def onDeviceAdded (desc : Description) (r : OpenResult) : List Action :=
  match r with
  | .ok =>
      let manager : DeviceManager := { description := desc }
      [.emitManagerAdded desc.devPath manager,
       .insertManager desc.devPath manager]
  | .err code =>
      if code == KEYLEDS_ERROR_HIDVERSION then []
      else [.reportError code]

/-- `Service::onDeviceRemoved` (`Service.cxx`): if the path is tracked,
move the manager out, erase the entry, emit `deviceManagerRemoved`, and
request termination when the registry became empty and auto-quit is
configured; otherwise do nothing. -/
def onDeviceRemoved (s : ServiceState) (autoQuit : Bool)
    (desc : Description) : List Action :=
  match findDev s.devices desc.devPath with
  | none => []
  | some m =>
      [.eraseManager desc.devPath,
       .emitManagerRemoved desc.devPath m]
        ++ (if (eraseDev s.devices desc.devPath).isEmpty && autoQuit
            then [.quit] else [])

/-- `Service::onDeviceLoopFinished` (`Service.cxx`): the stopped manager is
the signal's sender; its remembered description is fed to the removal
handler. -/
def onDeviceLoopFinished (s : ServiceState) (autoQuit : Bool)
    (sender : DeviceManager) : List Action :=
  onDeviceRemoved s autoQuit sender.description

/-- `Service::~Service` (`Service.cxx`): `setActive(false)` — deactivating
the watcher, silently — followed by `m_devices.clear()`, destroying all
remaining managers without emitting `deviceManagerRemoved`. -/
def serviceTeardown : List Action :=
  [.setWatcherActive false, .clearManagers]

/-- Process a burst of added-notifications, each with the outcome of its
open attempt, threading the registry state through
`Service::onDeviceAdded`. -/
def runAdded (s : ServiceState) :
    List (Description × OpenResult) → ServiceState
  | [] => s
  | x :: xs => runAdded (applyTrace s (onDeviceAdded x.1 x.2)) xs

/-- The correspondence the spec states as the watcher's invariant: the
known map holds, for each path, exactly the snapshot of the last
notification when that notification was a `deviceAdded`, and nothing
otherwise; together with well-formedness of the map. -/
def WatcherInv (s : WatcherState) (h : List Event) : Prop :=
  pathsNodup s.known ∧
    ∀ p, findByPath s.known p = expectedOf (lastEventFor h p)

/-! ## Helper lemmas: path-keyed lookup -/

theorem filterPath_append (l₁ l₂ : List Description) (p : String) :
    filterPath (l₁ ++ l₂) p = filterPath l₁ p ++ filterPath l₂ p :=
  List.filter_append ..

theorem mem_filterPath {l : List Description} {p : String} {d : Description} :
    d ∈ filterPath l p ↔ d ∈ l ∧ d.devPath = p := by
  simp [filterPath, List.mem_filter]

theorem filterPath_eq_nil {l : List Description} {p : String} :
    filterPath l p = [] ↔ ∀ d ∈ l, d.devPath ≠ p := by
  simp [filterPath, List.filter_eq_nil_iff]

theorem findByPath_eq_none {l : List Description} {p : String} :
    findByPath l p = none ↔ ∀ d ∈ l, d.devPath ≠ p := by
  rw [findByPath, List.head?_eq_none_iff, filterPath_eq_nil]

theorem findByPath_mem {l : List Description} {p : String} {d : Description}
    (h : findByPath l p = some d) : d ∈ l ∧ d.devPath = p := by
  have : d ∈ filterPath l p := by
    cases hf : filterPath l p with
    | nil => rw [findByPath, hf] at h; simp at h
    | cons x xs => rw [findByPath, hf] at h; simp at h; simp [h]
  exact mem_filterPath.mp this

theorem filterPath_single {l : List Description} {d : Description}
    (hn : pathsNodup l) (hd : d ∈ l) : filterPath l d.devPath = [d] := by
  induction l with
  | nil => cases hd
  | cons x xs ih =>
      have hn' : pathsNodup xs := (List.nodup_cons.mp hn).2
      have hx : x.devPath ∉ xs.map Description.devPath :=
        (List.nodup_cons.mp hn).1
      rcases List.mem_cons.mp hd with rfl | hmem
      · have : filterPath xs d.devPath = [] := by
          rw [filterPath_eq_nil]
          intro y hy hcontra
          exact hx (hcontra ▸ List.mem_map_of_mem Description.devPath hy)
        simp [filterPath, List.filter_cons, this]
        rw [filterPath] at this
        simpa using this
      · have hne : x.devPath ≠ d.devPath := by
          intro hcontra
          exact hx (hcontra ▸ List.mem_map_of_mem Description.devPath hmem)
        have := ih hn' hmem
        simp [filterPath, List.filter_cons, hne] at this ⊢
        exact this

theorem findByPath_single {l : List Description} {d : Description}
    (hn : pathsNodup l) (hd : d ∈ l) : findByPath l d.devPath = some d := by
  rw [findByPath, filterPath_single hn hd]; rfl

theorem pathsNodup_filter (q : Description → Bool) {l : List Description}
    (hn : pathsNodup l) : pathsNodup (l.filter q) :=
  ((List.filter_sublist l).map Description.devPath).nodup hn

theorem filterPath_filter (q : Description → Bool) (l : List Description)
    (p : String) :
    filterPath (l.filter q) p = (filterPath l p).filter q := by
  rw [filterPath, filterPath, List.filter_filter, List.filter_filter]
  exact List.filter_congr (fun d _ => Bool.and_comm ..)

/-! ## Helper lemmas: notification histories -/

theorem eventsFor_append (h₁ h₂ : List Event) (p : String) :
    eventsFor (h₁ ++ h₂) p = eventsFor h₁ p ++ eventsFor h₂ p :=
  List.filter_append ..

theorem eventsFor_map_added (l : List Description) (p : String) :
    eventsFor (l.map .added) p = (filterPath l p).map .added := by
  rw [eventsFor, filterPath, List.filter_map]; rfl

theorem eventsFor_map_removed (l : List Description) (p : String) :
    eventsFor (l.map .removed) p = (filterPath l p).map .removed := by
  rw [eventsFor, filterPath, List.filter_map]; rfl

theorem lastEventFor_append (h₁ h₂ : List Event) (p : String) :
    lastEventFor (h₁ ++ h₂) p = (lastEventFor h₂ p).or (lastEventFor h₁ p) := by
  rw [lastEventFor, lastEventFor, lastEventFor, eventsFor_append,
    List.getLast?_append]

/-! ## Helper lemmas: the scan diff -/

theorem mem_scanAdded {visible known : List Description} {d : Description} :
    d ∈ scanAdded visible known ↔
      d ∈ visible ∧ ∀ k ∈ known, k.devPath ≠ d.devPath := by
  simp [scanAdded, List.mem_filter]

theorem mem_scanRemoved {visible known : List Description} {k : Description} :
    k ∈ scanRemoved visible known ↔
      k ∈ known ∧ ∀ d ∈ visible, d.devPath ≠ k.devPath := by
  simp [scanRemoved, List.mem_filter]

theorem mem_scanKept {visible known : List Description} {k : Description} :
    k ∈ scanKept visible known ↔
      k ∈ known ∧ ∃ d ∈ visible, d.devPath = k.devPath := by
  simp [scanKept, List.mem_filter]

theorem scanDiff_added_case {visible known : List Description}
    {d : Description} (hv : pathsNodup visible) (hd : d ∈ visible)
    (hnone : findByPath known d.devPath = none) :
    eventsFor (scanDiff visible known).2 d.devPath = [.added d] ∧
      findByPath (scanDiff visible known).1 d.devPath = some d := by
  have habs : ∀ k ∈ known, k.devPath ≠ d.devPath := findByPath_eq_none.mp hnone
  have hdA : d ∈ scanAdded visible known := mem_scanAdded.mpr ⟨hd, habs⟩
  have hnA : pathsNodup (scanAdded visible known) := pathsNodup_filter _ hv
  have hA : filterPath (scanAdded visible known) d.devPath = [d] :=
    filterPath_single hnA hdA
  have hR : filterPath (scanRemoved visible known) d.devPath = [] := by
    rw [filterPath_eq_nil]
    intro x hx
    exact habs x (mem_scanRemoved.mp hx).1
  have hK : filterPath (scanKept visible known) d.devPath = [] := by
    rw [filterPath_eq_nil]
    intro x hx
    exact habs x (mem_scanKept.mp hx).1
  constructor
  · rw [scanDiff, eventsFor_append, eventsFor_map_added, eventsFor_map_removed,
      hA, hR]
    rfl
  · rw [scanDiff, findByPath, filterPath_append, hK, hA]
    rfl

theorem scanDiff_removed_case {visible known : List Description}
    {k : Description} (hk : pathsNodup known) (hmem : k ∈ known)
    (habs : ∀ d ∈ visible, d.devPath ≠ k.devPath) :
    eventsFor (scanDiff visible known).2 k.devPath = [.removed k] ∧
      findByPath (scanDiff visible known).1 k.devPath = none := by
  have hkR : k ∈ scanRemoved visible known := mem_scanRemoved.mpr ⟨hmem, habs⟩
  have hnR : pathsNodup (scanRemoved visible known) := pathsNodup_filter _ hk
  have hR : filterPath (scanRemoved visible known) k.devPath = [k] :=
    filterPath_single hnR hkR
  have hA : filterPath (scanAdded visible known) k.devPath = [] := by
    rw [filterPath_eq_nil]
    intro x hx
    exact habs x (mem_scanAdded.mp hx).1
  have hK : filterPath (scanKept visible known) k.devPath = [] := by
    rw [filterPath_eq_nil]
    intro x hx hxp
    rcases (mem_scanKept.mp hx).2 with ⟨d, hdv, hdp⟩
    exact habs d hdv (hxp ▸ hdp)
  constructor
  · rw [scanDiff, eventsFor_append, eventsFor_map_added, eventsFor_map_removed,
      hA, hR]
    rfl
  · rw [scanDiff, findByPath, filterPath_append, hK, hA]
    rfl

theorem scanDiff_kept_case {visible known : List Description}
    {d k : Description} (hk : pathsNodup known) (hd : d ∈ visible)
    (hsome : findByPath known d.devPath = some k) :
    eventsFor (scanDiff visible known).2 d.devPath = [] ∧
      findByPath (scanDiff visible known).1 d.devPath = some k := by
  obtain ⟨hkmem, hkp⟩ := findByPath_mem hsome
  have hA : filterPath (scanAdded visible known) d.devPath = [] := by
    rw [filterPath_eq_nil]
    intro x hx hxp
    exact (mem_scanAdded.mp hx).2 k hkmem (by rw [hkp, hxp])
  have hR : filterPath (scanRemoved visible known) d.devPath = [] := by
    rw [filterPath_eq_nil]
    intro x hx hxp
    exact (mem_scanRemoved.mp hx).2 d hd hxp.symm
  have hKknown : filterPath known d.devPath = [k] := by
    rw [← hkp] at *
    exact filterPath_single hk hkmem
  have hkvis : (visible.any (fun dd => dd.devPath == k.devPath)) = true :=
    List.any_eq_true.mpr ⟨d, hd, by rw [hkp]; exact beq_self_eq_true _⟩
  have hK : filterPath (scanKept visible known) d.devPath = [k] := by
    rw [scanKept, filterPath_filter, hKknown, List.filter_cons, hkvis]
    rfl
  constructor
  · rw [scanDiff, eventsFor_append, eventsFor_map_added, eventsFor_map_removed,
      hA, hR]
    rfl
  · rw [scanDiff, findByPath, filterPath_append, hK, hA]
    rfl

theorem scanDiff_absent_case {visible known : List Description} {p : String}
    (habs : ∀ d ∈ visible, d.devPath ≠ p)
    (hnone : findByPath known p = none) :
    eventsFor (scanDiff visible known).2 p = [] ∧
      findByPath (scanDiff visible known).1 p = none := by
  have hkabs : ∀ k ∈ known, k.devPath ≠ p := findByPath_eq_none.mp hnone
  have hA : filterPath (scanAdded visible known) p = [] := by
    rw [filterPath_eq_nil]
    intro x hx
    exact habs x (mem_scanAdded.mp hx).1
  have hR : filterPath (scanRemoved visible known) p = [] := by
    rw [filterPath_eq_nil]
    intro x hx
    exact hkabs x (mem_scanRemoved.mp hx).1
  have hK : filterPath (scanKept visible known) p = [] := by
    rw [filterPath_eq_nil]
    intro x hx
    exact hkabs x (mem_scanKept.mp hx).1
  constructor
  · rw [scanDiff, eventsFor_append, eventsFor_map_added, eventsFor_map_removed,
      hA, hR]
    rfl
  · rw [scanDiff, findByPath, filterPath_append, hK, hA]
    rfl

theorem scanDiff_nodup {visible known : List Description}
    (hv : pathsNodup visible) (hk : pathsNodup known) :
    pathsNodup (scanDiff visible known).1 := by
  rw [scanDiff, pathsNodup, List.map_append, List.nodup_append]
  refine ⟨pathsNodup_filter _ hk, pathsNodup_filter _ hv, ?_⟩
  intro p hpK hpA
  rcases List.mem_map.mp hpK with ⟨k, hkmem, hkp⟩
  rcases List.mem_map.mp hpA with ⟨a, hamem, hap⟩
  exact (mem_scanAdded.mp hamem).2 k (mem_scanKept.mp hkmem).1
    (by rw [hkp, hap])

theorem scanDiff_empty (visible : List Description) :
    scanDiff visible [] = (visible, visible.map .added) := by
  simp [scanDiff, scanAdded, scanRemoved, scanKept]

theorem scanDiff_idempotent (visible known : List Description) :
    (scanDiff visible (scanDiff visible known).1).2 = [] := by
  have hA : scanAdded visible (scanDiff visible known).1 = [] := by
    rw [scanAdded, List.filter_eq_nil_iff]
    intro d hd hcontra
    rw [Bool.not_eq_true', List.any_eq_false] at hcontra
    by_cases hc : ∃ k ∈ known, k.devPath = d.devPath
    · rcases hc with ⟨k, hkmem, hkp⟩
      refine hcontra k ?_ (by rw [hkp]; exact beq_self_eq_true _)
      rw [scanDiff]
      exact List.mem_append.mpr
        (Or.inl (mem_scanKept.mpr ⟨hkmem, d, hd, hkp.symm⟩))
    · push_neg at hc
      refine hcontra d ?_ (beq_self_eq_true _)
      rw [scanDiff]
      exact List.mem_append.mpr (Or.inr (mem_scanAdded.mpr ⟨hd, hc⟩))
  have hR : scanRemoved visible (scanDiff visible known).1 = [] := by
    rw [scanRemoved, List.filter_eq_nil_iff]
    intro x hx hcontra
    rw [Bool.not_eq_true', List.any_eq_false] at hcontra
    rw [scanDiff] at hx
    rcases List.mem_append.mp hx with hK | hAm
    · rcases (mem_scanKept.mp hK).2 with ⟨d, hdv, hdp⟩
      exact hcontra d hdv (by rw [hdp]; exact beq_self_eq_true _)
    · exact hcontra x (mem_scanAdded.mp hAm).1 (beq_self_eq_true _)
  rw [scanDiff, hA, hR]
  rfl

/-! ## Helper lemmas: the watcher invariant -/

theorem watcherStep_scan (vis : Description → Bool) (s : WatcherState)
    (e : List Description) :
    watcherStep vis s (.scan e)
      = ({ s with known := (scanDiff (e.filter vis) s.known).1 },
         (scanDiff (e.filter vis) s.known).2) := rfl

theorem watcherStep_activate (vis : Description → Bool) {s : WatcherState}
    (e : List Description) (hb : s.active = false) :
    watcherStep vis s (.setActive true e)
      = ({ known := (scanDiff (e.filter vis) s.known).1, active := true },
         (scanDiff (e.filter vis) s.known).2) := by
  simp [watcherStep, hb]

theorem watcherStep_deactivate (vis : Description → Bool) {s : WatcherState}
    (e : List Description) (hb : s.active = true) :
    watcherStep vis s (.setActive false e)
      = ({ s with active := false }, []) := by
  simp [watcherStep, hb]

theorem watcherStep_setActive_noop (vis : Description → Bool)
    {s : WatcherState} (b : Bool) (e : List Description) (hb : s.active = b) :
    watcherStep vis s (.setActive b e) = (s, []) := by
  cases b <;> simp [watcherStep, hb]

theorem watcherStep_monitor_invisible (vis : Description → Bool)
    (s : WatcherState) (isAdd : Bool) {d : Description}
    (hvis : vis d = false) :
    watcherStep vis s (.monitorEvent isAdd d) = (s, []) := by
  simp [watcherStep, hvis]

theorem watcherStep_monitorAdd_new (vis : Description → Bool)
    {s : WatcherState} {d : Description} (hvis : vis d = true)
    (hfind : findByPath s.known d.devPath = none) :
    watcherStep vis s (.monitorEvent true d)
      = ({ s with known := s.known ++ [d] }, [.added d]) := by
  simp [watcherStep, hvis, hfind]

theorem watcherStep_monitorAdd_known (vis : Description → Bool)
    {s : WatcherState} {d k : Description} (hvis : vis d = true)
    (hfind : findByPath s.known d.devPath = some k) :
    watcherStep vis s (.monitorEvent true d) = (s, []) := by
  simp [watcherStep, hvis, hfind]

theorem watcherStep_monitorRemove_known (vis : Description → Bool)
    {s : WatcherState} {d k : Description} (hvis : vis d = true)
    (hfind : findByPath s.known d.devPath = some k) :
    watcherStep vis s (.monitorEvent false d)
      = ({ s with known := s.known.filter (fun x => !(x.devPath == d.devPath)) },
         [.removed k]) := by
  simp [watcherStep, hvis, hfind]

theorem watcherStep_monitorRemove_new (vis : Description → Bool)
    {s : WatcherState} {d : Description} (hvis : vis d = true)
    (hfind : findByPath s.known d.devPath = none) :
    watcherStep vis s (.monitorEvent false d) = (s, []) := by
  simp [watcherStep, hvis, hfind]

theorem scanDiff_inv {visible known : List Description} {h : List Event}
    (hv : pathsNodup visible) (hk : pathsNodup known)
    (hinv : ∀ p, findByPath known p = expectedOf (lastEventFor h p)) :
    pathsNodup (scanDiff visible known).1 ∧
      ∀ p, findByPath (scanDiff visible known).1 p
            = expectedOf (lastEventFor (h ++ (scanDiff visible known).2) p) := by
  refine ⟨scanDiff_nodup hv hk, fun p => ?_⟩
  rw [lastEventFor_append]
  by_cases hvp : ∃ d ∈ visible, d.devPath = p
  · rcases hvp with ⟨d, hd, hdp⟩
    subst hdp
    cases hsome : findByPath known d.devPath with
    | none =>
        obtain ⟨he, hf⟩ := scanDiff_added_case hv hd hsome
        rw [hf, lastEventFor, he]
        simp [expectedOf, Event.path]
    | some k =>
        obtain ⟨he, hf⟩ := scanDiff_kept_case hk hd hsome
        rw [hf, lastEventFor, he]
        simp only [List.getLast?_nil, Option.or]
        rw [← hinv, hsome]
  · push_neg at hvp
    cases hsome : findByPath known p with
    | none =>
        obtain ⟨he, hf⟩ := scanDiff_absent_case hvp hsome
        rw [hf, lastEventFor, he]
        simp only [List.getLast?_nil, Option.or]
        rw [← hinv, hsome]
    | some k =>
        obtain ⟨hkmem, hkp⟩ := findByPath_mem hsome
        have habs : ∀ d ∈ visible, d.devPath ≠ k.devPath := by
          intro d hd
          rw [hkp]
          exact hvp d hd
        obtain ⟨he, hf⟩ := scanDiff_removed_case hk hkmem habs
        rw [hkp] at he hf
        rw [hf, lastEventFor, he]
        simp [expectedOf]

theorem watcherStep_preserves (vis : Description → Bool) {s : WatcherState}
    {op : WatcherOp} {h : List Event} (hwf : op.wf) (hinv : WatcherInv s h) :
    WatcherInv (watcherStep vis s op).1 (h ++ (watcherStep vis s op).2) := by
  obtain ⟨hnd, hcorr⟩ := hinv
  cases op with
  | scan enumeration =>
      have hv : pathsNodup (enumeration.filter vis) := pathsNodup_filter vis hwf
      obtain ⟨h1, h2⟩ := scanDiff_inv hv hnd hcorr
      exact ⟨h1, h2⟩
  | setActive b enumeration =>
      have hv : pathsNodup (enumeration.filter vis) := pathsNodup_filter vis hwf
      by_cases hb : s.active = b
      · rw [watcherStep_setActive_noop vis b enumeration hb]
        exact ⟨hnd, by simpa using hcorr⟩
      · cases b with
        | true =>
            have hb' : s.active = false := by
              cases hx : s.active
              · rfl
              · exact absurd hx hb
            rw [watcherStep_activate vis enumeration hb']
            obtain ⟨h1, h2⟩ := scanDiff_inv hv hnd hcorr
            exact ⟨h1, h2⟩
        | false =>
            have hb' : s.active = true := by
              cases hx : s.active
              · exact absurd hx hb
              · rfl
            rw [watcherStep_deactivate vis enumeration hb']
            exact ⟨hnd, by simpa using hcorr⟩
  | monitorEvent isAdd d =>
      by_cases hvis : vis d = true
      · cases isAdd with
        | true =>
            cases hfind : findByPath s.known d.devPath with
            | some k =>
                rw [watcherStep_monitorAdd_known vis hvis hfind]
                exact ⟨hnd, by simpa using hcorr⟩
            | none =>
                rw [watcherStep_monitorAdd_new vis hvis hfind]
                have hfresh : ∀ x ∈ s.known, x.devPath ≠ d.devPath :=
                  findByPath_eq_none.mp hfind
                constructor
                · rw [pathsNodup, List.map_append, List.nodup_append]
                  refine ⟨hnd, List.nodup_singleton _, ?_⟩
                  intro q hq hq'
                  rcases List.mem_map.mp hq with ⟨x, hx, hxp⟩
                  simp at hq'
                  exact hfresh x hx (by rw [hxp, hq'])
                · intro p
                  rw [lastEventFor_append]
                  by_cases hp : d.devPath = p
                  · subst hp
                    have hlast : lastEventFor [Event.added d] d.devPath
                        = some (.added d) := by
                      simp [lastEventFor, eventsFor, Event.path]
                    rw [hlast]
                    rw [findByPath, filterPath_append,
                      filterPath_eq_nil.mpr hfresh]
                    simp [filterPath, expectedOf, Option.or]
                  · have hlast : lastEventFor [Event.added d] p = none := by
                      simp [lastEventFor, eventsFor, Event.path, hp]
                    rw [hlast, Option.or]
                    rw [findByPath, filterPath_append]
                    have hnilp : filterPath [d] p = [] :=
                      filterPath_eq_nil.mpr (by simpa using hp)
                    rw [hnilp, List.append_nil, ← findByPath, hcorr]
        | false =>
            cases hfind : findByPath s.known d.devPath with
            | none =>
                rw [watcherStep_monitorRemove_new vis hvis hfind]
                exact ⟨hnd, by simpa using hcorr⟩
            | some k =>
                rw [watcherStep_monitorRemove_known vis hvis hfind]
                obtain ⟨hkmem, hkp⟩ := findByPath_mem hfind
                constructor
                · exact pathsNodup_filter _ hnd
                · intro p
                  rw [lastEventFor_append]
                  by_cases hp : d.devPath = p
                  · subst hp
                    have hlast : lastEventFor [Event.removed k] d.devPath
                        = some (.removed k) := by
                      simp [lastEventFor, eventsFor, Event.path, hkp]
                    rw [hlast]
                    have hnone : findByPath
                        (s.known.filter (fun x => !(x.devPath == d.devPath)))
                        d.devPath = none := by
                      rw [findByPath_eq_none]
                      intro x hx
                      have hxq := (List.mem_filter.mp hx).2
                      rw [Bool.not_eq_true', beq_eq_false_iff_ne] at hxq
                      exact hxq
                    rw [hnone]
                    simp [expectedOf]
                  · have hlast : lastEventFor [Event.removed k] p = none := by
                      simp [lastEventFor, eventsFor, Event.path, hkp, hp]
                    rw [hlast, Option.or]
                    have hall : (filterPath s.known p).filter
                        (fun x => !(x.devPath == d.devPath))
                          = filterPath s.known p := by
                      rw [List.filter_eq_self]
                      intro x hx
                      have hxp := (mem_filterPath.mp hx).2
                      rw [Bool.not_eq_true', beq_eq_false_iff_ne, hxp]
                      exact Ne.symm hp
                    rw [findByPath, filterPath_filter, hall, ← findByPath,
                      hcorr]
      · have hvis' : vis d = false := by
          cases hv : vis d
          · rfl
          · exact absurd hv hvis
        rw [watcherStep_monitor_invisible vis s isAdd hvis']
        exact ⟨hnd, by simpa using hcorr⟩

theorem watcherRun_preserves (vis : Description → Bool) {s : WatcherState}
    {h : List Event} (ops : List WatcherOp) (hwf : ∀ op ∈ ops, op.wf)
    (hinv : WatcherInv s h) :
    WatcherInv (watcherRun vis s ops).1 (h ++ (watcherRun vis s ops).2) := by
  induction ops generalizing s h with
  | nil => simpa [watcherRun]
  | cons op ops ih =>
      have h1 := watcherStep_preserves vis (hwf op (List.mem_cons_self op ops))
        hinv
      have h2 := ih (fun o ho => hwf o (List.mem_cons_of_mem op ho)) h1
      simpa [watcherRun, List.append_assoc] using h2

/-! ## Helper lemmas: the registry map -/

theorem findDev_cons (e : String × DeviceManager)
    (t : List (String × DeviceManager)) (p : String) :
    findDev (e :: t) p = if e.1 == p then some e.2 else findDev t p := by
  cases he : (e.1 == p) <;> simp [findDev, List.filter_cons, he]

theorem insertDev_cons_ne {e : String × DeviceManager}
    {t : List (String × DeviceManager)} {p : String}
    (he : (e.1 == p) = false) (v : DeviceManager) :
    insertDev (e :: t) p v = e :: insertDev t p v := by
  cases ha : t.any (fun x => x.1 == p) <;>
    simp [insertDev, List.any_cons, he, ha, beq_eq_false_iff_ne.mp he]

theorem findDev_insertDev (m : List (String × DeviceManager)) (p : String)
    (v : DeviceManager) : findDev (insertDev m p v) p = some v := by
  induction m with
  | nil => simp [insertDev, findDev, List.filter_cons]
  | cons e t ih =>
      cases he : (e.1 == p) with
      | true =>
          have hmap : insertDev (e :: t) p v
              = (p, v) :: t.map (fun x => if x.1 == p then (p, v) else x) := by
            simp [insertDev, List.any_cons, he, beq_iff_eq.mp he]
          rw [hmap, findDev_cons]
          simp
      | false =>
          rw [insertDev_cons_ne he, findDev_cons, he]
          simpa using ih

theorem keys_insertDev_mem (m : List (String × DeviceManager)) (p : String)
    (v : DeviceManager) (ha : m.any (fun e => e.1 == p) = true) :
    (insertDev m p v).map Prod.fst = m.map Prod.fst := by
  rw [insertDev, if_pos ha, List.map_map]
  refine List.map_congr_left (fun x _ => ?_)
  cases hx : (x.1 == p) with
  | true => simp [hx, (beq_iff_eq.mp hx).symm]
  | false => simp [hx, beq_eq_false_iff_ne.mp hx]

theorem keysNodup_insertDev {m : List (String × DeviceManager)} (p : String)
    (v : DeviceManager) (h : keysNodup m) : keysNodup (insertDev m p v) := by
  cases ha : m.any (fun e => e.1 == p) with
  | true => rw [keysNodup, keys_insertDev_mem m p v ha]; exact h
  | false =>
      rw [keysNodup, insertDev, if_neg (by simp [ha]), List.map_append,
        List.nodup_append]
      refine ⟨h, List.nodup_singleton _, ?_⟩
      intro q hq hq'
      rcases List.mem_map.mp hq with ⟨x, hx, hxp⟩
      simp at hq'
      rw [List.any_eq_false] at ha
      exact ha x hx (beq_iff_eq.mpr (by rw [hxp, hq']))

theorem keysNodup_eraseDev {m : List (String × DeviceManager)} (p : String)
    (h : keysNodup m) : keysNodup (eraseDev m p) :=
  ((List.filter_sublist m).map Prod.fst).nodup h

theorem findDev_eraseDev (m : List (String × DeviceManager)) (p : String) :
    findDev (eraseDev m p) p = none := by
  have : (eraseDev m p).filter (fun e => e.1 == p) = [] := by
    rw [List.filter_eq_nil_iff]
    intro e he hq
    have := (List.mem_filter.mp he).2
    rw [hq] at this
    simp at this
  rw [findDev, this]
  rfl

theorem length_key_le_one {m : List (String × DeviceManager)}
    (h : keysNodup m) (p : String) :
    (m.filter (fun e => e.1 == p)).length ≤ 1 := by
  induction m with
  | nil => simp
  | cons e t ih =>
      rw [keysNodup, List.map_cons, List.nodup_cons] at h
      obtain ⟨hh, ht⟩ := h
      cases he : (e.1 == p) with
      | false =>
          rw [List.filter_cons, he]
          exact ih ht
      | true =>
          have hnil : t.filter (fun x => x.1 == p) = [] := by
            rw [List.filter_eq_nil_iff]
            intro x hx hq
            exact hh (by
              rw [beq_iff_eq.mp he, ← beq_iff_eq.mp hq]
              exact List.mem_map_of_mem Prod.fst hx)
          rw [List.filter_cons, he, hnil]
          simp

theorem applyTrace_onDeviceAdded_nodup {s : ServiceState}
    (desc : Description) (r : OpenResult) (h : keysNodup s.devices) :
    keysNodup (applyTrace s (onDeviceAdded desc r)).devices := by
  cases r with
  | ok =>
      simp only [onDeviceAdded, applyTrace, List.foldl, applyAction]
      exact keysNodup_insertDev _ _ h
  | err code =>
      cases hc : (code == KEYLEDS_ERROR_HIDVERSION) <;>
        simp only [onDeviceAdded, hc, if_pos, if_neg, applyTrace, List.foldl,
          applyAction, Bool.false_eq_true, if_false, if_true] <;>
        exact h

theorem runAdded_nodup {s : ServiceState}
    (xs : List (Description × OpenResult)) (h : keysNodup s.devices) :
    keysNodup (runAdded s xs).devices := by
  induction xs generalizing s with
  | nil => exact h
  | cons x xs ih =>
      rw [runAdded]
      exact ih (applyTrace_onDeviceAdded_nodup x.1 x.2 h)

/-! ## Claims about the discovery engine -/

/-- C1: `scan` diffs the filtered enumeration against the known map: a
visible enumerated device absent from the map yields exactly one
`deviceAdded` notification and is inserted; a known device absent from the
enumeration yields exactly one `deviceRemoved` notification and is erased;
a device present in both yields no notification; the first scan over an
empty map announces every visible device; a second identical scan emits
nothing. -/
theorem scan_diff_behaviour (vis : Description → Bool) (s : WatcherState)
    (enumeration : List Description)
    (hv : pathsNodup (enumeration.filter vis)) (hk : pathsNodup s.known) :
    (∀ d ∈ enumeration, vis d = true →
        findByPath s.known d.devPath = none →
        eventsFor (watcherStep vis s (.scan enumeration)).2 d.devPath
            = [.added d] ∧
          findByPath (watcherStep vis s (.scan enumeration)).1.known
            d.devPath = some d) ∧
      (∀ k ∈ s.known,
        (∀ d ∈ enumeration, vis d = true → d.devPath ≠ k.devPath) →
        eventsFor (watcherStep vis s (.scan enumeration)).2 k.devPath
            = [.removed k] ∧
          findByPath (watcherStep vis s (.scan enumeration)).1.known
            k.devPath = none) ∧
      (∀ d ∈ enumeration, vis d = true →
        ∀ k, findByPath s.known d.devPath = some k →
        eventsFor (watcherStep vis s (.scan enumeration)).2 d.devPath
          = []) ∧
      (s.known = [] →
        (watcherStep vis s (.scan enumeration)).2
          = (enumeration.filter vis).map .added) ∧
      (watcherStep vis (watcherStep vis s (.scan enumeration)).1
          (.scan enumeration)).2 = [] := by
  rw [watcherStep_scan]
  refine ⟨?_, ?_, ?_, ?_, ?_⟩
  · intro d hd hdvis hnone
    exact scanDiff_added_case hv (List.mem_filter.mpr ⟨hd, hdvis⟩) hnone
  · intro k hkmem habs
    refine scanDiff_removed_case hk hkmem ?_
    intro d hdmem
    obtain ⟨hd, hdvis⟩ := List.mem_filter.mp hdmem
    exact habs d hd hdvis
  · intro d hd hdvis k hsome
    exact (scanDiff_kept_case hk (List.mem_filter.mpr ⟨hd, hdvis⟩) hsome).1
  · intro h0
    rw [h0, scanDiff_empty]
  · rw [watcherStep_scan]
    exact scanDiff_idempotent _ _

/-- Witness for C1 at a concrete input: an enumeration with one visible
and one invisible device scanned against the empty map, then re-scanned. -/
theorem scan_diff_behaviour_witness :
    (eventsFor (watcherStep (fun d => d.subsystem == "usb") initWatcher
          (.scan [⟨"pA", "usb", "", "nA", [], [], []⟩,
                  ⟨"pB", "hid", "", "nB", [], [], []⟩])).2 "pA"
        = [.added ⟨"pA", "usb", "", "nA", [], [], []⟩] ∧
      findByPath (watcherStep (fun d => d.subsystem == "usb") initWatcher
          (.scan [⟨"pA", "usb", "", "nA", [], [], []⟩,
                  ⟨"pB", "hid", "", "nB", [], [], []⟩])).1.known "pA"
        = some ⟨"pA", "usb", "", "nA", [], [], []⟩) ∧
      (watcherStep (fun d => d.subsystem == "usb")
          (watcherStep (fun d => d.subsystem == "usb") initWatcher
            (.scan [⟨"pA", "usb", "", "nA", [], [], []⟩,
                    ⟨"pB", "hid", "", "nB", [], [], []⟩])).1
          (.scan [⟨"pA", "usb", "", "nA", [], [], []⟩,
                  ⟨"pB", "hid", "", "nB", [], [], []⟩])).2 = [] :=
  ⟨(scan_diff_behaviour (fun d => d.subsystem == "usb") initWatcher
      [⟨"pA", "usb", "", "nA", [], [], []⟩,
       ⟨"pB", "hid", "", "nB", [], [], []⟩]
      (by unfold pathsNodup; decide) (by unfold pathsNodup; decide)).1
      ⟨"pA", "usb", "", "nA", [], [], []⟩ (by decide) (by decide) (by decide),
    (scan_diff_behaviour (fun d => d.subsystem == "usb") initWatcher
      [⟨"pA", "usb", "", "nA", [], [], []⟩,
       ⟨"pB", "hid", "", "nB", [], [], []⟩]
      (by unfold pathsNodup; decide) (by unfold pathsNodup; decide)).2.2.2.2⟩

/-- C2: after any sequence of well-formed engine operations (scans,
activations and deactivations, monitor events) starting from the fresh
watcher, the known map holds exactly the devices whose last notification
was a `deviceAdded` with no `deviceRemoved` since — every operation
preserves the correspondence between map and notification history. -/
theorem known_map_matches_history (vis : Description → Bool)
    (ops : List WatcherOp) (hwf : ∀ op ∈ ops, op.wf) (p : String) :
    findByPath (watcherRun vis initWatcher ops).1.known p
      = expectedOf (lastEventFor (watcherRun vis initWatcher ops).2 p) := by
  have hinit : WatcherInv initWatcher [] := ⟨List.nodup_nil, fun _ => rfl⟩
  have h := watcherRun_preserves vis ops hwf hinit
  simpa using h.2 p

/-- Witness for C2 at a concrete input: activation with a baseline scan,
a monitor attach, a re-scan that drops the monitored device, and a final
monitor detach. -/
theorem known_map_matches_history_witness :
    findByPath (watcherRun (fun d => d.subsystem == "usb") initWatcher
        [.setActive true [⟨"pA", "usb", "", "nA", [], [], []⟩],
         .monitorEvent true ⟨"pC", "usb", "", "nC", [], [], []⟩,
         .scan [⟨"pC", "usb", "", "nC", [], [], []⟩],
         .monitorEvent false ⟨"pC", "usb", "", "nC", [], [], []⟩]).1.known
        "pC"
      = expectedOf (lastEventFor
          (watcherRun (fun d => d.subsystem == "usb") initWatcher
            [.setActive true [⟨"pA", "usb", "", "nA", [], [], []⟩],
             .monitorEvent true ⟨"pC", "usb", "", "nC", [], [], []⟩,
             .scan [⟨"pC", "usb", "", "nC", [], [], []⟩],
             .monitorEvent false ⟨"pC", "usb", "", "nC", [], [], []⟩]).2
          "pC") :=
  known_map_matches_history (fun d => d.subsystem == "usb")
    [.setActive true [⟨"pA", "usb", "", "nA", [], [], []⟩],
     .monitorEvent true ⟨"pC", "usb", "", "nC", [], [], []⟩,
     .scan [⟨"pC", "usb", "", "nC", [], [], []⟩],
     .monitorEvent false ⟨"pC", "usb", "", "nC", [], [], []⟩]
    (by simp [WatcherOp.wf]) "pC"

/-! ## Claims about the match filter -/

/-- C7: `FilteredDeviceWatcher.isVisible` accepts a description exactly when
the subsystem rule is unset or matches, the device-type rule is unset or
matches, every required property is present with the required value, every
required tag is present, and every required attribute is present with the
required value — a pure conjunction of all rules. -/
theorem isVisible_iff_rules (f : DeviceFilter) (d : Description) :
    isVisible f d = true ↔
      (f.matchSubsystem = "" ∨ f.matchSubsystem = d.subsystem) ∧
        (f.matchDevType = "" ∨ f.matchDevType = d.devType) ∧
        (∀ kv ∈ f.matchProperties, d.properties.lookup kv.1 = some kv.2) ∧
        (∀ t ∈ f.matchTags, t ∈ d.tags) ∧
        (∀ kv ∈ f.matchAttributes, d.attributes.lookup kv.1 = some kv.2) := by
  simp [isVisible, Bool.and_eq_true, Bool.or_eq_true, List.all_eq_true,
    List.contains_eq_any_beq, List.any_eq_true, and_assoc]

/-! ## Claims about the lifecycle registry -/

/-- C3: processing any burst of added-notifications (for any mix of paths
and open outcomes) keeps the registry keys pairwise distinct, so at any
time there is at most one manager per device path; the de-duplication
behaviour is the deterministic replacement performed by
`m_devices[path] = std::move(manager)` — a further successful
added-notification leaves exactly the newest manager under its path. -/
theorem registry_at_most_one_manager (s : ServiceState)
    (h : keysNodup s.devices) (xs : List (Description × OpenResult))
    (p : String) :
    keysNodup (runAdded s xs).devices ∧
      ((runAdded s xs).devices.filter (fun e => e.1 == p)).length ≤ 1 ∧
      ∀ desc : Description,
        findDev (applyTrace (runAdded s xs)
            (onDeviceAdded desc .ok)).devices desc.devPath
          = some { description := desc } := by
  refine ⟨runAdded_nodup xs h, length_key_le_one (runAdded_nodup xs h) p, ?_⟩
  intro desc
  simp only [onDeviceAdded, applyTrace, List.foldl, applyAction]
  exact findDev_insertDev _ _ _

/-- Witness for C3 at a concrete input: two added-notifications for the
same path starting from the empty registry. -/
theorem registry_at_most_one_manager_witness :
    keysNodup (runAdded initService
        [(⟨"p1", "usb", "", "n1", [], [], []⟩, .ok),
         (⟨"p1", "usb", "", "n1", [], [], []⟩, .ok)]).devices ∧
      ((runAdded initService
        [(⟨"p1", "usb", "", "n1", [], [], []⟩, .ok),
         (⟨"p1", "usb", "", "n1", [], [], []⟩, .ok)]).devices.filter
           (fun e => e.1 == "p1")).length ≤ 1 ∧
      ∀ desc : Description,
        findDev (applyTrace (runAdded initService
            [(⟨"p1", "usb", "", "n1", [], [], []⟩, .ok),
             (⟨"p1", "usb", "", "n1", [], [], []⟩, .ok)])
            (onDeviceAdded desc .ok)).devices desc.devPath
          = some { description := desc } :=
  registry_at_most_one_manager initService (by simp [initService, keysNodup])
    [(⟨"p1", "usb", "", "n1", [], [], []⟩, .ok),
     (⟨"p1", "usb", "", "n1", [], [], []⟩, .ok)] "p1"

/-- C4: an added-notification whose open attempt throws is suppressed when
the code is `KEYLEDS_ERROR_HIDVERSION` and reported otherwise; either way
no `deviceManagerAdded` is emitted, the registry state is unchanged, and
any subsequent notification is processed exactly as it would have been
without the failure. -/
theorem onDeviceAdded_open_failure (s : ServiceState) (desc : Description)
    (code : Nat) :
    onDeviceAdded desc (.err code)
        = (if code == KEYLEDS_ERROR_HIDVERSION then []
           else [.reportError code]) ∧
      applyTrace s (onDeviceAdded desc (.err code)) = s ∧
      (∀ p m, Action.emitManagerAdded p m ∉ onDeviceAdded desc (.err code)) ∧
      ∀ (desc2 : Description) (r2 : OpenResult),
        applyTrace (applyTrace s (onDeviceAdded desc (.err code)))
            (onDeviceAdded desc2 r2)
          = applyTrace s (onDeviceAdded desc2 r2) := by
  have hs : applyTrace s (onDeviceAdded desc (.err code)) = s := by
    rw [onDeviceAdded]
    cases code == KEYLEDS_ERROR_HIDVERSION <;> rfl
  refine ⟨rfl, hs, ?_, ?_⟩
  · intro p m hmem
    rw [onDeviceAdded] at hmem
    cases code == KEYLEDS_ERROR_HIDVERSION <;> simp_all
  · intro desc2 r2
    rw [hs]

/-- C5 as stated is refuted: on a successful open the
`deviceManagerAdded` emission is the first action of the handler, before
the insertion, so at the moment the notification is delivered the registry
does not yet contain the manager. -/
theorem onDeviceAdded_emit_before_insert_cex :
    (onDeviceAdded ⟨"p0", "usb", "", "n0", [], [], []⟩ .ok).get? 0
        = some (.emitManagerAdded "p0"
            { description := ⟨"p0", "usb", "", "n0", [], [], []⟩ }) ∧
      findDev ((applyTrace initService
          ((onDeviceAdded ⟨"p0", "usb", "", "n0", [], [], []⟩ .ok).take
            0)).devices) "p0" = none :=
  ⟨rfl, rfl⟩

/-- C5 amended: on a successful open the handler constructs the manager,
emits `deviceManagerAdded`, and only then inserts the manager into the
registry; the registry still has its pre-notification contents at delivery
time, and contains the manager once the handler returns. -/
theorem onDeviceAdded_success_order (s : ServiceState) (desc : Description) :
    onDeviceAdded desc .ok
        = [.emitManagerAdded desc.devPath { description := desc },
           .insertManager desc.devPath { description := desc }] ∧
      applyTrace s ((onDeviceAdded desc .ok).take 1) = s ∧
      findDev (applyTrace s (onDeviceAdded desc .ok)).devices desc.devPath
        = some { description := desc } := by
  refine ⟨rfl, rfl, ?_⟩
  simp only [onDeviceAdded, applyTrace, List.foldl, applyAction]
  exact findDev_insertDev _ _ _

/-- C6: a removed-notification that empties the registry triggers the
termination request exactly once when auto-quit is configured, and never
when it is not. -/
theorem onDeviceRemoved_autoQuit (s : ServiceState) (autoQuit : Bool)
    (desc : Description) (m : DeviceManager)
    (hfound : findDev s.devices desc.devPath = some m)
    (hempty : (eraseDev s.devices desc.devPath).isEmpty = true) :
    (onDeviceRemoved s autoQuit desc).count .quit
      = if autoQuit then 1 else 0 := by
  rw [onDeviceRemoved, hfound, hempty]
  cases autoQuit <;>
    simp [List.count_cons, List.count_append, List.count_nil]

/-- Witness for C6 at a concrete input: a registry tracking exactly one
device, whose removal empties it. -/
theorem onDeviceRemoved_autoQuit_witness :
    (onDeviceRemoved
        { devices := [("p1",
            { description := ⟨"p1", "usb", "", "n1", [], [], []⟩ })],
          active := true }
        true ⟨"p1", "usb", "", "n1", [], [], []⟩).count .quit
      = if true then 1 else 0 :=
  onDeviceRemoved_autoQuit
    { devices := [("p1",
        { description := ⟨"p1", "usb", "", "n1", [], [], []⟩ })],
      active := true }
    true ⟨"p1", "usb", "", "n1", [], [], []⟩
    { description := ⟨"p1", "usb", "", "n1", [], [], []⟩ }
    (by decide) (by decide)

/-- C8: a manager's unsolicited stop is handled by feeding its remembered
description to the very removal handler used for OS-delivered
removed-notifications: the trace and the resulting state coincide — one
code path for all removal causes. -/
theorem onDeviceLoopFinished_single_path (s : ServiceState)
    (autoQuit : Bool) (m : DeviceManager) :
    onDeviceLoopFinished s autoQuit m
        = onDeviceRemoved s autoQuit m.description ∧
      applyTrace s (onDeviceLoopFinished s autoQuit m)
        = applyTrace s (onDeviceRemoved s autoQuit m.description) :=
  ⟨rfl, rfl⟩

/-- C9: teardown first deactivates the watcher, then destroys all
remaining managers, and emits no `deviceManagerRemoved` notification no
matter how many devices were still tracked. -/
theorem serviceTeardown_silent (s : ServiceState) :
    serviceTeardown = [.setWatcherActive false, .clearManagers] ∧
      applyTrace s serviceTeardown = { devices := [], active := false } ∧
      ∀ p m, Action.emitManagerRemoved p m ∉ serviceTeardown := by
  refine ⟨rfl, rfl, ?_⟩
  intro p m hmem
  simp [serviceTeardown] at hmem

/-- C10: a removed-notification for an untracked path is a complete no-op:
the handler's trace is empty, so the registry is unchanged, nothing is
emitted and no termination is requested, whatever the auto-quit setting. -/
theorem onDeviceRemoved_unknown_noop (s : ServiceState) (autoQuit : Bool)
    (desc : Description) (h : findDev s.devices desc.devPath = none) :
    onDeviceRemoved s autoQuit desc = [] ∧
      applyTrace s (onDeviceRemoved s autoQuit desc) = s := by
  have ht : onDeviceRemoved s autoQuit desc = [] := by
    rw [onDeviceRemoved, h]
  exact ⟨ht, by rw [ht]; rfl⟩

/-- Witness for C10 at a concrete input: an empty registry with auto-quit
enabled. -/
theorem onDeviceRemoved_unknown_noop_witness :
    onDeviceRemoved initService true ⟨"p1", "usb", "", "n1", [], [], []⟩
        = [] ∧
      applyTrace initService
          (onDeviceRemoved initService true
            ⟨"p1", "usb", "", "n1", [], [], []⟩)
        = initService :=
  onDeviceRemoved_unknown_noop initService true
    ⟨"p1", "usb", "", "n1", [], [], []⟩ (by decide)

end Keyleds
